import Mathlib

/-!
Verification of the CUDA non-maximum-suppression kernels of
`python/tvm/topi/cuda/nms.py`, shallowly embedded in Lean.

Modelling conventions:
* one batch row is modelled at a time: the IR parallelises rows over
  `blockIdx.y` and no statement ever mixes two rows, so every per-row claim
  is stated on the single-row model;
* GPU buffers are total functions (`ℕ → ℤ`, `ℕ → Box`, ...); a kernel scope
  whose parallel writes touch pairwise distinct positions is embedded as a
  pointwise function update, and the sequential loops of the IR
  (`ib.for_range`) are embedded as `List.foldl` over `List.range`;
* `float32` scalars are modelled as `ℚ` (exact field arithmetic);
* `int32` scalars are modelled as `ℤ` or `ℕ` (no wrap-around: every integer
  quantity in the kernels is bounded by `num_anchors`, far below `2^31`).
-/

/-- Fuel-driven ceiling base-2 logarithm.  `clog2F fuel n` returns
`⌈log₂ n⌉` provided `n ≤ fuel`; structural recursion on the fuel keeps the
definition kernel-reducible. -/
def clog2F : ℕ → ℕ → ℕ
  | 0, _ => 0
  | fuel + 1, n => if n ≤ 1 then 0 else clog2F fuel ((n + 1) / 2) + 1

/-- `scanLim n` models the scan-level count
`cast(ceil(log2(cast(num_anchors, "float64"))), "int64")` of
`get_valid_indices_ir`: the exact value `⌈log₂ n⌉` (the float64 computation
is exact for every `int32`-ranged `n`). -/
def scanLim (n : ℕ) : ℕ := clog2F n n

/-- One up-sweep level of the exclusive scan in `get_valid_indices_ir`, at
block width `w` (`w = 2 << l2_width`).  Each thread owns the block
`[w*tid, min(w*tid+w, n))`; when `middle = w*tid + w/2 < n` it performs
`a[end-1] += a[middle-1]` with `end = min(w*tid+w, n)`.  Distinct threads
write pairwise distinct positions, so the level is a pointwise map. -/
def upLevel (n w : ℕ) (a : ℕ → ℤ) : ℕ → ℤ := fun p =>
  if w * (p / w) + w / 2 < n ∧ p + 1 = min (w * (p / w) + w) n then
    a p + a (w * (p / w) + w / 2 - 1)
  else a p

/-- The up-sweep phase: levels `l2_width = 0, ..., L-1` with widths
`2 << l2_width = 2^(l2_width+1)`. -/
def upsweep (n L : ℕ) (a : ℕ → ℤ) : ℕ → ℤ :=
  (List.range L).foldl (fun acc l => upLevel n (2 ^ (l + 1)) acc) a

/-- One down-sweep level at width `w`: with `middle = w*tid + w/2 < n` and
`end = min(w*tid+w, n)`, the thread performs
`tmp = a[middle-1]; a[middle-1] = a[end-1]; a[end-1] += tmp`.
Again a pointwise map, as all written positions are pairwise distinct. -/
def downLevel (n w : ℕ) (a : ℕ → ℤ) : ℕ → ℤ := fun p =>
  if w * (p / w) + w / 2 < n ∧ p + 1 = w * (p / w) + w / 2 then
    a (min (w * (p / w) + w) n - 1)
  else if w * (p / w) + w / 2 < n ∧ p + 1 = min (w * (p / w) + w) n then
    a p + a (w * (p / w) + w / 2 - 1)
  else a p

/-- The down-sweep phase: levels `l2_width = 0, ..., L-1` with widths
`2 << (L - l2_width - 1) = 2^(L - l2_width)`. -/
def downsweep (n L : ℕ) (a : ℕ → ℤ) : ℕ → ℤ :=
  (List.range L).foldl (fun acc l => downLevel n (2 ^ (L - l)) acc) a

/-- Single-row model of `get_valid_indices_ir`.  For `num_anchors > 0` the
mask row is copied into `valid_indices`, up-swept, the last element is
copied to `valid_count` and zeroed, and the row is down-swept; for
`num_anchors = 0` only `valid_count = 0` is written.  Returns the final
`valid_indices` row and the row's `valid_count`. -/
def get_valid_indices (n : ℕ) (mask : ℕ → ℤ) : (ℕ → ℤ) × ℤ :=
  if 0 < n then
    ((downsweep n (scanLim n) fun p =>
        if p = n - 1 then 0 else upsweep n (scanLim n) mask p),
      upsweep n (scanLim n) mask (n - 1))
  else (mask, 0)

/-- Largest `j ≤ m` with `2^j ∣ p+1`. -/
def lvlOf : ℕ → ℕ → ℕ
  | 0, _ => 0
  | m + 1, p => if (p + 1) % 2 ^ (m + 1) = 0 then m + 1 else lvlOf m p

/-- The aligned block start of `p` at granularity `2^j`. -/
def blockStart (j p : ℕ) : ℕ := 2 ^ j * (p / 2 ^ j)

/-- Level at which `p` last received an up-sweep write, after `m` levels:
the clamped last element `n-1` is written at every level, every other `p`
at levels up to the 2-adic valuation of `p+1`. -/
def lvl (n m p : ℕ) : ℕ := if p = n - 1 then m else lvlOf m p

/-- Start of the segment whose sum `p` holds after `m` up-sweep levels. -/
def vstart (n m p : ℕ) : ℕ := blockStart (lvl n m p) p

/-- Segment sum of a row. -/
def sIco (a : ℕ → ℤ) (lo hi : ℕ) : ℤ := ∑ i in Finset.Ico lo hi, a i

/-- A concrete 5-anchor validity mask `[1, 0, 1, 1, 0]`. -/
def mask5 : ℕ → ℤ := fun i => if i = 0 ∨ i = 2 ∨ i = 3 then 1 else 0

/-- Number of valid anchors strictly before `j` (the value the exclusive
scan stores at `j`). -/
def cntValid (vb : ℕ → ℤ) (j : ℕ) : ℕ :=
  ((Finset.range j).filter (fun i => vb i = 1)).card

/-- One scatter write of `get_valid_counts_ir`: for anchor `j` with the mask
set, copy the full record `data[j]` to output slot `valid_indices[j]` and
record `out_indices[valid_indices[j]] = j`.  The destinations of distinct
valid anchors are pairwise distinct (the destination array is the strictly
increasing exclusive scan), so the parallel scatter is order-independent and
is embedded as a fold over anchors. -/
def scatterStep (data : ℕ → ℕ → ℚ) (valid_boxes valid_indices : ℕ → ℤ)
    (st : (ℕ → ℕ → ℚ) × (ℕ → ℤ)) (j : ℕ) : (ℕ → ℕ → ℚ) × (ℕ → ℤ) :=
  if 0 < valid_boxes j then
    (fun s k => if s = (valid_indices j).toNat then data j k else st.1 s k,
      fun s => if s = (valid_indices j).toNat then (j : ℤ) else st.2 s)
  else st

/-- Single-row model of `get_valid_counts_ir`: a first kernel scope fills
every output field and every `out_indices` entry with the sentinel `-1`
(scope barrier before the scatter), then the scatter scope runs. -/
def get_valid_counts_row (n : ℕ) (data : ℕ → ℕ → ℚ)
    (valid_indices valid_boxes : ℕ → ℤ) : (ℕ → ℕ → ℚ) × (ℕ → ℤ) :=
  (List.range n).foldl (scatterStep data valid_boxes valid_indices)
    (fun _ _ => -1, fun _ => -1)

/-- A concrete 3-anchor mask `[1, 0, 1]`. -/
def vb3 : ℕ → ℤ := fun i => if i = 0 ∨ i = 2 then 1 else 0

/-- The exclusive scan of `vb3`: `[0, 1, 1]`. -/
def vi3 : ℕ → ℤ := fun j => if j = 0 then 0 else 1

/-- Concrete box data for three anchors. -/
def data3 : ℕ → ℕ → ℚ := fun j k => (j : ℚ) * 10 + (k : ℚ)

/-- One box record of the NMS buffers.  The IR addresses a record's scalars
by the (pairwise distinct) offsets `score_index`, `id_index` and
`coord_start .. coord_start+3`; the structure models those fields by name
(canonical layout `[class_id, score, left, top, right, bottom]`). -/
structure Box where
  score : ℚ
  cls : ℚ
  x0 : ℚ
  y0 : ℚ
  x1 : ℚ
  y1 : ℚ

/-- `get_boundaries`: componentwise min/max normalisation of the two corner
pairs, left coordinate. -/
def boxL (b : Box) : ℚ := min b.x0 b.x1

/-- `get_boundaries`: top coordinate. -/
def boxT (b : Box) : ℚ := min b.y0 b.y1

/-- `get_boundaries`: right coordinate. -/
def boxR (b : Box) : ℚ := max b.x0 b.x1

/-- `get_boundaries`: bottom coordinate. -/
def boxB (b : Box) : ℚ := max b.y0 b.y1

/-- `area = h * w` of `calculate_overlap`: the clamped-to-zero overlap
height times the clamped-to-zero overlap width. -/
def interArea (a b : Box) : ℚ :=
  max 0 (min (boxB a) (boxB b) - max (boxT a) (boxT b))
    * max 0 (min (boxR a) (boxR b) - max (boxL a) (boxL b))

/-- Area of a normalised box, `(a_r - a_l) * (a_b - a_t)`. -/
def boxArea (a : Box) : ℚ := (boxR a - boxL a) * (boxB a - boxT a)

/-- `u` of `calculate_overlap`: sum of both areas minus the intersection. -/
def unionArea (a b : Box) : ℚ := boxArea a + boxArea b - interArea a b

/-- `calculate_overlap`: `Select(u <= 0, 0, area / u)`. -/
def calculate_overlap (a b : Box) : ℚ :=
  if unionArea a b ≤ 0 then 0 else interArea a b / unionArea a b

/-- Scalar parameters of `nms_ir` that Phase B consults.  `force_suppress`
is the IR int flag `1 if force_suppress else 0`, modelled as `Bool`. -/
structure NmsParams where
  iou_threshold : ℚ
  max_output_size : ℤ
  force_suppress : Bool
  top_k : ℤ
  id_index : ℤ

/-- The all-`-1` record written to discarded output slots. -/
def sentinelBox : Box := ⟨-1, -1, -1, -1, -1, -1⟩

/-- `nkeep = if top_k > 0 and top_k < valid_count then top_k else valid_count`. -/
def nmsNkeep (p : NmsParams) (vc : ℤ) : ℤ :=
  if 0 < p.top_k ∧ p.top_k < vc then p.top_k else vc

/-- Body of the inner `k` loop of `nms_inner_loop` for one candidate `b`
against the kept box `bj`: if `b` is still valid (`score > 0`) and passes
the class gate, and `IoU(bj, b) >= iou_threshold`, then `b`'s score is
invalidated to `-1` (and its class id too when `id_index >= 0`). -/
def suppress1 (p : NmsParams) (bj b : Box) : Box :=
  if 0 < b.score ∧ (p.force_suppress ∨ p.id_index < 0 ∨ b.cls = bj.cls) then
    if p.iou_threshold ≤ calculate_overlap bj b then
      { b with score := -1, cls := if 0 ≤ p.id_index then -1 else b.cls }
    else b
  else b

/-- `nms_inner_loop` for kept box `j`: increment the kept counter and run
the (parallel, pairwise-independent) comparisons against all
`k ∈ (j, nkeep)`. -/
def innerLoop (p : NmsParams) (nkeep : ℕ) (st : (ℕ → Box) × ℕ) (j : ℕ) :
    (ℕ → Box) × ℕ :=
  ((fun k => if j < k ∧ k < nkeep then suppress1 p (st.1 j) (st.1 k) else st.1 k),
    st.2 + 1)

/-- One iteration of the Phase B outer loop: box `j` enters the inner loop
only if it is still valid (`score > -1`) and, when `max_output_size > 0`,
only while fewer than `max_output_size` boxes have been kept. -/
def nmsStep (p : NmsParams) (nkeep : ℕ) (st : (ℕ → Box) × ℕ) (j : ℕ) :
    (ℕ → Box) × ℕ :=
  if -1 < (st.1 j).score then
    if 0 < p.max_output_size then
      if (st.2 : ℤ) < p.max_output_size then innerLoop p nkeep st j else st
    else innerLoop p nkeep st j
  else st

/-- Phase A of `nms_ir` on one row: when `iou_threshold > 0` and
`valid_count > 0`, slot `j < nkeep` receives `data[sorted_index[j]]` and
slots `nkeep ≤ j < num_anchors` the sentinel; otherwise slot
`j < valid_count` receives `data[j]` unchanged (identity pass) and the
other slots are untouched. -/
def phaseA (p : NmsParams) (n : ℕ) (vc : ℤ) (sorted_index : ℕ → ℕ)
    (data out0 : ℕ → Box) : ℕ → Box :=
  if 0 < p.iou_threshold ∧ 0 < vc then
    fun j =>
      if (j : ℤ) < nmsNkeep p vc then data (sorted_index j)
      else if j < n then sentinelBox
      else out0 j
  else
    fun j => if (j : ℤ) < vc then data j else out0 j

/-- Phase B of `nms_ir` on one row: when `iou_threshold > 0` and
`valid_count > 0`, the sequential greedy loop over `j ∈ [0, nkeep)` runs
and `num_valid_boxes` receives the kept count; otherwise the buffer is
left as Phase A produced it and `num_valid_boxes = 0`. -/
def phaseB (p : NmsParams) (vc : ℤ) (out1 : ℕ → Box) : (ℕ → Box) × ℤ :=
  if 0 < p.iou_threshold ∧ 0 < vc then
    (((List.range (nmsNkeep p vc).toNat).foldl (nmsStep p (nmsNkeep p vc).toNat)
        (out1, 0)).1,
      ((((List.range (nmsNkeep p vc).toNat).foldl (nmsStep p (nmsNkeep p vc).toNat)
        (out1, 0)).2 : ℕ) : ℤ))
  else (out1, 0)

/-- One row of `nms_ir`: Phase A then Phase B.  Returns the output box
buffer and the row's `num_valid_boxes`. -/
def nms_row (p : NmsParams) (n : ℕ) (vc : ℤ) (sorted_index : ℕ → ℕ)
    (data out0 : ℕ → Box) : (ℕ → Box) × ℤ :=
  phaseB p vc (phaseA p n vc sorted_index data out0)

/-- Parameters of the C3 counterexample run: `iou_threshold = 1/2`,
unlimited output, `force_suppress`, no `top_k`, class gating disabled. -/
def pC3 : NmsParams := ⟨1/2, -1, true, -1, -1⟩

/-- Unit square with score `9/10`. -/
def boxAC3 : Box := ⟨9/10, 0, 0, 0, 1, 1⟩

/-- The same unit square with score `0`: not the invalidated sentinel, yet
skipped by the `score > 0` liveness test. -/
def boxBC3 : Box := ⟨0, 0, 0, 0, 1, 1⟩

/-- Two-anchor input row for the C3 counterexample. -/
def dataC3 : ℕ → Box := fun j => if j = 0 then boxAC3 else boxBC3

/-- An all-sentinel initial output buffer. -/
def zeroOut : ℕ → Box := fun _ => sentinelBox

/-- The buffer Phase A produces on the C3 input. -/
def outC3 : ℕ → Box := fun j => if j < 2 then dataC3 j else sentinelBox

/-- Phase B state after processing `j = 0` on the C3 input. -/
def gC3 : ℕ → Box := fun k =>
  if 0 < k ∧ k < 2 then suppress1 pC3 (outC3 0) (outC3 k) else outC3 k

/-- Phase B state after processing `j = 1` on the C3 input. -/
def gC3b : ℕ → Box := fun k =>
  if 1 < k ∧ k < 2 then suppress1 pC3 (gC3 1) (gC3 k) else gC3 k

/-- C4 counterexample parameters: the larger threshold `1/2`. -/
def pHi : NmsParams := ⟨1/2, -1, true, -1, -1⟩

/-- C4 counterexample parameters: the smaller threshold `3/10`. -/
def pLo : NmsParams := ⟨3/10, -1, true, -1, -1⟩

/-- Box A `[0,2]×[1/2,3/2]`, score `9/10`. -/
def boxA4 : Box := ⟨9/10, 0, 0, 1/2, 2, 3/2⟩

/-- Box B `[0,2]×[0,1]`, score `8/10`. -/
def boxB4 : Box := ⟨8/10, 0, 0, 0, 2, 1⟩

/-- Box C `[0,1]×[0,1]` (left half of B), score `7/10`. -/
def boxC4 : Box := ⟨7/10, 0, 0, 0, 1, 1⟩

/-- Box D `[1,2]×[0,1]` (right half of B, disjoint from C), score `6/10`. -/
def boxD4 : Box := ⟨6/10, 0, 1, 0, 2, 1⟩

/-- Box B with its score invalidated. -/
def boxB4dead : Box := ⟨-1, 0, 0, 0, 2, 1⟩

/-- Box C with its score invalidated. -/
def boxC4dead : Box := ⟨-1, 0, 0, 0, 1, 1⟩

/-- Box D with its score invalidated. -/
def boxD4dead : Box := ⟨-1, 0, 1, 0, 2, 1⟩

/-- Four-anchor input row of the C4 counterexample, already in descending
score order. -/
def data4 : ℕ → Box := fun j =>
  if j = 0 then boxA4 else if j = 1 then boxB4 else if j = 2 then boxC4 else boxD4

/-- The buffer Phase A produces on the C4 input. -/
def out14 : ℕ → Box := fun j => if j < 4 then data4 j else sentinelBox

/-- Phase B state (threshold `1/2`) after `j = 0`. -/
def g1H : ℕ → Box := fun k =>
  if 0 < k ∧ k < 4 then suppress1 pHi (out14 0) (out14 k) else out14 k

/-- Phase B state (threshold `1/2`) after `j = 1`. -/
def g2H : ℕ → Box := fun k =>
  if 1 < k ∧ k < 4 then suppress1 pHi (g1H 1) (g1H k) else g1H k

/-- Phase B state (threshold `3/10`) after `j = 0`. -/
def g1L : ℕ → Box := fun k =>
  if 0 < k ∧ k < 4 then suppress1 pLo (out14 0) (out14 k) else out14 k

/-- Phase B state (threshold `3/10`) after `j = 2`. -/
def g3L : ℕ → Box := fun k =>
  if 2 < k ∧ k < 4 then suppress1 pLo (g1L 2) (g1L k) else g1L k

/-- Phase B state (threshold `3/10`) after `j = 3`. -/
def g4L : ℕ → Box := fun k =>
  if 3 < k ∧ k < 4 then suppress1 pLo (g3L 3) (g3L k) else g3L k

/-- Parameters with `max_output_size = 1` for the C6 witness. -/
def pC6 : NmsParams := ⟨1/2, 1, true, -1, -1⟩

/-- Unit square with score `1` for the C8 witness. -/
def unitBox : Box := ⟨1, 0, 0, 0, 1, 1⟩

/-- Model of `get_valid_boxes_ir` at one anchor `(i, j)`: the flat `data`
buffer is addressed at `(i*num_anchors + j)*elem_length + score_index` and
`... + id_index` (the latter over `ℤ`, as a negative `id_index` forms a
negative offset that the short-circuit `any` never dereferences); the flag
written to `valid_boxes[i*num_anchors + j]` is `1` when
`score > score_threshold` and (`id_index < 0` or the class id is `≥ 0`),
else `0`. -/
def get_valid_boxes (num_anchors elem_length : ℕ) (data : ℤ → ℚ)
    (score_threshold : ℚ) (id_index score_index : ℤ) (i j : ℕ) : ℤ :=
  if score_threshold
        < data (((i * num_anchors + j : ℕ) : ℤ) * (elem_length : ℤ) + score_index)
      ∧ (id_index < 0 ∨
        0 ≤ data (((i * num_anchors + j : ℕ) : ℤ) * (elem_length : ℤ) + id_index))
  then 1 else 0

/-- The dtype strings the CUDA lowering rule inspects. -/
def float32dt : String := "float32"

/-- The 64-bit float dtype string. -/
def float64dt : String := "float64"

/-- The 32-bit int dtype string. -/
def int32dt : String := "int32"

/-- A dtype the rule rejects, for the witness. -/
def float16dt : String := "float16"

/-- The target-side intrinsic both accepted branches emit. -/
def atomicAddExtern : String := "atomicAdd"

/-- The message of the `RuntimeError` raised for unsupported dtypes. -/
def unsupportedMsg : String := "only support int32, float32 and float64"

/-- Model of `cuda_atomic_add_rule`: the intrinsic-lowering rule registered
for `tir.atomic_add` on the CUDA target.  It runs at lowering
(configuration) time, before any kernel is launched; the `RuntimeError`
raise is modelled as `Except.error`. -/
def cuda_atomic_add_rule (dtype : String) : Except String String :=
  if dtype = float32dt then Except.ok atomicAddExtern
  else if dtype = float64dt then Except.ok atomicAddExtern
  else if dtype = int32dt then Except.ok atomicAddExtern
  else Except.error unsupportedMsg

theorem clog2F_eq_clog : ∀ fuel n, n ≤ fuel → clog2F fuel n = Nat.clog 2 n := by
  intro fuel
  induction fuel with
  | zero => intro n hn; interval_cases n; simp [clog2F]
  | succ f ih =>
    intro n hn
    by_cases h1 : n ≤ 1
    · rw [clog2F, if_pos h1, Nat.clog_of_right_le_one h1]
    · have h2 : 2 ≤ n := by omega
      rw [clog2F, if_neg h1, Nat.clog_of_two_le (by norm_num) h2]
      have : (n + 2 - 1) / 2 = (n + 1) / 2 := by omega
      rw [this, ih ((n + 1) / 2) (by omega)]

theorem scanLim_eq_clog (n : ℕ) : scanLim n = Nat.clog 2 n :=
  clog2F_eq_clog n n le_rfl

theorem le_pow_scanLim (n : ℕ) : n ≤ 2 ^ scanLim n := by
  rw [scanLim_eq_clog]; exact Nat.le_pow_clog (by norm_num) n

theorem foldl_range_succ {α : Type} (f : α → ℕ → α) (a : α) (m : ℕ) :
    (List.range (m + 1)).foldl f a = f ((List.range m).foldl f a) m := by
  rw [List.range_succ, List.foldl_append, List.foldl_cons, List.foldl_nil]

theorem upsweep_succ (n m : ℕ) (a : ℕ → ℤ) :
    upsweep n (m + 1) a = upLevel n (2 ^ (m + 1)) (upsweep n m a) :=
  foldl_range_succ _ a m

theorem downsweep_succ (n L : ℕ) (a : ℕ → ℤ) :
    downsweep n (L + 1) a = downsweep n L (downLevel n (2 ^ (L + 1)) a) := by
  unfold downsweep
  rw [List.range_succ_eq_map, List.foldl_cons, List.foldl_map]
  simp only [Nat.sub_zero, Nat.succ_sub_succ]

theorem lvlOf_le (m p : ℕ) : lvlOf m p ≤ m := by
  induction m with
  | zero => simp [lvlOf]
  | succ m ih =>
    rw [lvlOf]
    split
    · exact le_rfl
    · omega

theorem lvlOf_dvd (m p : ℕ) : 2 ^ lvlOf m p ∣ p + 1 := by
  induction m with
  | zero => simp [lvlOf]
  | succ m ih =>
    rw [lvlOf]
    split
    · exact Nat.dvd_of_mod_eq_zero (by assumption)
    · exact ih

theorem le_lvlOf (m p k : ℕ) (hk : k ≤ m) (hdvd : 2 ^ k ∣ p + 1) :
    k ≤ lvlOf m p := by
  induction m with
  | zero => omega
  | succ m ih =>
    rw [lvlOf]
    split
    · omega
    · rename_i h
      rcases Nat.lt_or_ge k (m + 1) with h' | h'
      · exact ih (by omega)
      · exfalso
        have hkk : k = m + 1 := by omega
        exact h (Nat.mod_eq_zero_of_dvd (hkk ▸ hdvd))

theorem lvlOf_succ_ne (m p : ℕ) (h : (p + 1) % 2 ^ (m + 1) ≠ 0) :
    lvlOf (m + 1) p = lvlOf m p := by
  rw [lvlOf, if_neg h]

theorem lvlOf_succ_dvd (m p : ℕ) (h : (p + 1) % 2 ^ (m + 1) = 0) :
    lvlOf (m + 1) p = m + 1 := by
  rw [lvlOf, if_pos h]

theorem lvlOf_eq (m p k : ℕ) (hk : k ≤ m) (hdvd : 2 ^ k ∣ p + 1)
    (hnd : ¬ 2 ^ (k + 1) ∣ p + 1) : lvlOf m p = k := by
  refine le_antisymm ?_ (le_lvlOf m p k hk hdvd)
  by_contra h
  push_neg at h
  exact hnd (dvd_trans (pow_dvd_pow 2 h) (lvlOf_dvd m p))

theorem blockStart_spec (j q r : ℕ) (hr : r < 2 ^ j) :
    blockStart j (2 ^ j * q + r) = 2 ^ j * q := by
  unfold blockStart
  rw [Nat.mul_add_div (Nat.pos_pow_of_pos j (by norm_num)), Nat.div_eq_of_lt hr,
    Nat.add_zero]

theorem sIco_single (a : ℕ → ℤ) (p : ℕ) : sIco a p (p + 1) = a p := by
  unfold sIco
  rw [Finset.sum_Ico_succ_top (le_refl p), Finset.Ico_self, Finset.sum_empty, zero_add]

theorem sIco_glue (a : ℕ → ℤ) (x y z : ℕ) (h1 : x ≤ y) (h2 : y ≤ z) :
    sIco a x y + sIco a y z = sIco a x z :=
  Finset.sum_Ico_consecutive a h1 h2

theorem blockStart_eq_of (j p b r : ℕ) (h : p = 2 ^ j * b + r) (hr : r < 2 ^ j) :
    blockStart j p = 2 ^ j * b := by
  rw [h]; exact blockStart_spec j b r hr

theorem upLevel_inv (a₀ : ℕ → ℤ) (n m : ℕ) (A : ℕ → ℤ)
    (hA : ∀ p, p < n → A p = sIco a₀ (vstart n m p) (p + 1)) :
    ∀ p, p < n → upLevel n (2 ^ (m + 1)) A p = sIco a₀ (vstart n (m + 1) p) (p + 1) := by
  intro p hp
  have h2m : 0 < 2 ^ m := pow_pos (by norm_num) m
  have hw : 0 < 2 ^ (m + 1) := pow_pos (by norm_num) (m + 1)
  have hwm : 2 ^ (m + 1) = 2 ^ m + 2 ^ m := by rw [pow_succ, mul_two]
  have hw2 : 2 ^ (m + 1) / 2 = 2 ^ m := by
    rw [pow_succ]; exact Nat.mul_div_cancel _ (by norm_num)
  have hmod := Nat.mod_add_div p (2 ^ (m + 1))
  have hmlt : p % 2 ^ (m + 1) < 2 ^ (m + 1) := Nat.mod_lt p hw
  have hb1 : 2 ^ (m + 1) * (p / 2 ^ (m + 1)) = 2 ^ m * (2 * (p / 2 ^ (m + 1))) := by
    rw [pow_succ]; ring
  have hb2 : 2 ^ m * (2 * (p / 2 ^ (m + 1)) + 1)
      = 2 ^ m * (2 * (p / 2 ^ (m + 1))) + 2 ^ m := by ring
  have hb3 : 2 ^ (m + 1) * (p / 2 ^ (m + 1) + 1)
      = 2 ^ (m + 1) * (p / 2 ^ (m + 1)) + 2 ^ (m + 1) := by ring
  rw [upLevel, hw2]
  by_cases hC : 2 ^ (m + 1) * (p / 2 ^ (m + 1)) + 2 ^ m < n ∧
      p + 1 = min (2 ^ (m + 1) * (p / 2 ^ (m + 1)) + 2 ^ (m + 1)) n
  case pos =>
    rw [if_pos hC]
    obtain ⟨hmidn, hpmin⟩ := hC
    have hmidne : 2 ^ (m + 1) * (p / 2 ^ (m + 1)) + 2 ^ m - 1 ≠ n - 1 := by omega
    have hA1 := hA (2 ^ (m + 1) * (p / 2 ^ (m + 1)) + 2 ^ m - 1) (by omega)
    have hlvl1 : lvlOf m (2 ^ (m + 1) * (p / 2 ^ (m + 1)) + 2 ^ m - 1) = m := by
      refine le_antisymm (lvlOf_le _ _) (le_lvlOf _ _ _ le_rfl ?_)
      exact ⟨2 * (p / 2 ^ (m + 1)) + 1, by omega⟩
    have hbs1 : blockStart m (2 ^ (m + 1) * (p / 2 ^ (m + 1)) + 2 ^ m - 1)
        = 2 ^ m * (2 * (p / 2 ^ (m + 1))) :=
      blockStart_eq_of m _ (2 * (p / 2 ^ (m + 1))) (2 ^ m - 1) (by omega) (by omega)
    rw [vstart, lvl, if_neg hmidne, hlvl1, hbs1] at hA1
    have hup : 2 ^ (m + 1) * (p / 2 ^ (m + 1)) + 2 ^ m - 1 + 1
        = 2 ^ m * (2 * (p / 2 ^ (m + 1)) + 1) := by omega
    rw [hup] at hA1
    have hvmp : vstart n m p = 2 ^ m * (2 * (p / 2 ^ (m + 1)) + 1) := by
      by_cases hpn : p = n - 1
      · rw [vstart, lvl, if_pos hpn]
        exact blockStart_eq_of m p (2 * (p / 2 ^ (m + 1)) + 1)
          (p - (2 ^ (m + 1) * (p / 2 ^ (m + 1)) + 2 ^ m)) (by omega) (by omega)
      · have hdvdp : 2 ^ m ∣ p + 1 := ⟨2 * (p / 2 ^ (m + 1)) + 2, by
          have hb4 : 2 ^ m * (2 * (p / 2 ^ (m + 1)) + 2)
              = 2 ^ m * (2 * (p / 2 ^ (m + 1))) + 2 ^ m + 2 ^ m := by ring
          omega⟩
        rw [vstart, lvl, if_neg hpn,
          le_antisymm (lvlOf_le _ _) (le_lvlOf _ _ _ le_rfl hdvdp)]
        exact blockStart_eq_of m p (2 * (p / 2 ^ (m + 1)) + 1) (2 ^ m - 1)
          (by omega) (by omega)
    have hvm1 : vstart n (m + 1) p = 2 ^ (m + 1) * (p / 2 ^ (m + 1)) := by
      by_cases hpn : p = n - 1
      · rw [vstart, lvl, if_pos hpn]
        exact blockStart_eq_of (m + 1) p (p / 2 ^ (m + 1))
          (p - 2 ^ (m + 1) * (p / 2 ^ (m + 1))) (by omega) (by omega)
      · have hdvdp1 : 2 ^ (m + 1) ∣ p + 1 := ⟨p / 2 ^ (m + 1) + 1, by omega⟩
        rw [vstart, lvl, if_neg hpn,
          le_antisymm (lvlOf_le _ _) (le_lvlOf _ _ _ le_rfl hdvdp1)]
        exact blockStart_eq_of (m + 1) p (p / 2 ^ (m + 1)) (2 ^ (m + 1) - 1)
          (by omega) (by omega)
    rw [hA p hp, hvmp, hA1, hvm1, hb1, add_comm]
    exact sIco_glue a₀ _ _ _ (by omega) (by omega)
  case neg =>
    rw [if_neg hC]
    rw [hA p hp]
    suffices h : vstart n (m + 1) p = vstart n m p by rw [h]
    by_cases hpn : p = n - 1
    · have hmidge : n ≤ 2 ^ (m + 1) * (p / 2 ^ (m + 1)) + 2 ^ m := by
        by_contra hlt
        push_neg at hlt
        exact hC ⟨hlt, by omega⟩
      rw [vstart, vstart, lvl, lvl, if_pos hpn, if_pos hpn]
      have e1 : blockStart (m + 1) p = 2 ^ (m + 1) * (p / 2 ^ (m + 1)) :=
        blockStart_eq_of (m + 1) p (p / 2 ^ (m + 1))
          (p - 2 ^ (m + 1) * (p / 2 ^ (m + 1))) (by omega) (by omega)
      have e2 : blockStart m p = 2 ^ m * (2 * (p / 2 ^ (m + 1))) :=
        blockStart_eq_of m p (2 * (p / 2 ^ (m + 1)))
          (p - 2 ^ (m + 1) * (p / 2 ^ (m + 1))) (by omega) (by omega)
      omega
    · by_cases hd : (p + 1) % 2 ^ (m + 1) = 0
      · exfalso
        obtain ⟨q, hq⟩ := Nat.dvd_of_mod_eq_zero hd
        have h1 : 2 ^ (m + 1) * (p / 2 ^ (m + 1)) < 2 ^ (m + 1) * q := by omega
        have h2 : 2 ^ (m + 1) * q ≤ 2 ^ (m + 1) * (p / 2 ^ (m + 1) + 1) := by omega
        have h3 := Nat.lt_of_mul_lt_mul_left h1
        have h4 := Nat.le_of_mul_le_mul_left h2 hw
        have hq1 : q = p / 2 ^ (m + 1) + 1 := by omega
        subst hq1
        exact hC ⟨by omega, by omega⟩
      · rw [vstart, vstart, lvl, lvl, if_neg hpn, if_neg hpn, lvlOf_succ_ne m p hd]

theorem upsweep_inv (a₀ : ℕ → ℤ) (n : ℕ) :
    ∀ m p, p < n → upsweep n m a₀ p = sIco a₀ (vstart n m p) (p + 1) := by
  intro m
  induction m with
  | zero =>
    intro p hp
    have h0 : vstart n 0 p = p := by
      unfold vstart lvl
      have hl : (if p = n - 1 then 0 else lvlOf 0 p) = 0 := by
        split <;> simp [lvlOf]
      rw [hl]
      unfold blockStart
      simp
    rw [h0, show upsweep n 0 a₀ = a₀ from rfl]
    exact (sIco_single a₀ p).symm
  | succ m ih =>
    rw [upsweep_succ]
    exact upLevel_inv a₀ n m (upsweep n m a₀) ih

theorem downLevel_inv (a₀ : ℕ → ℤ) (n g : ℕ) (A : ℕ → ℤ)
    (hA : ∀ p, p < n →
      ((p + 1) % 2 ^ (g + 1) = 0 ∨ p = n - 1 →
        A p = sIco a₀ 0 (blockStart (g + 1) p)) ∧
      (¬((p + 1) % 2 ^ (g + 1) = 0 ∨ p = n - 1) →
        A p = sIco a₀ (blockStart (lvlOf (g + 1) p) p) (p + 1))) :
    ∀ p, p < n →
      ((p + 1) % 2 ^ g = 0 ∨ p = n - 1 →
        downLevel n (2 ^ (g + 1)) A p = sIco a₀ 0 (blockStart g p)) ∧
      (¬((p + 1) % 2 ^ g = 0 ∨ p = n - 1) →
        downLevel n (2 ^ (g + 1)) A p = sIco a₀ (blockStart (lvlOf g p) p) (p + 1)) := by
  intro p hp
  have h2g : 0 < 2 ^ g := pow_pos (by norm_num) g
  have hw : 0 < 2 ^ (g + 1) := pow_pos (by norm_num) (g + 1)
  have hwm : 2 ^ (g + 1) = 2 ^ g + 2 ^ g := by rw [pow_succ, mul_two]
  have hw2 : 2 ^ (g + 1) / 2 = 2 ^ g := by
    rw [pow_succ]; exact Nat.mul_div_cancel _ (by norm_num)
  have hmod := Nat.mod_add_div p (2 ^ (g + 1))
  have hmlt : p % 2 ^ (g + 1) < 2 ^ (g + 1) := Nat.mod_lt p hw
  have hb1 : 2 ^ (g + 1) * (p / 2 ^ (g + 1)) = 2 ^ g * (2 * (p / 2 ^ (g + 1))) := by
    rw [pow_succ]; ring
  have hb2 : 2 ^ g * (2 * (p / 2 ^ (g + 1)) + 1)
      = 2 ^ g * (2 * (p / 2 ^ (g + 1))) + 2 ^ g := by ring
  have hb3 : 2 ^ (g + 1) * (p / 2 ^ (g + 1) + 1)
      = 2 ^ (g + 1) * (p / 2 ^ (g + 1)) + 2 ^ (g + 1) := by ring
  have hb4 : 2 ^ g * (2 * (p / 2 ^ (g + 1)) + 2)
      = 2 ^ g * (2 * (p / 2 ^ (g + 1))) + 2 ^ g + 2 ^ g := by ring
  by_cases hW1 : 2 ^ (g + 1) * (p / 2 ^ (g + 1)) + 2 ^ g < n ∧
      p + 1 = 2 ^ (g + 1) * (p / 2 ^ (g + 1)) + 2 ^ g
  · -- this position is the `middle-1` of its block: it receives `a[end-1]`
    have hDL : downLevel n (2 ^ (g + 1)) A p
        = A (min (2 ^ (g + 1) * (p / 2 ^ (g + 1)) + 2 ^ (g + 1)) n - 1) := by
      rw [downLevel, hw2, if_pos hW1]
    obtain ⟨hmidn, hpmid⟩ := hW1
    have hval : A (min (2 ^ (g + 1) * (p / 2 ^ (g + 1)) + 2 ^ (g + 1)) n - 1)
        = sIco a₀ 0 (2 ^ (g + 1) * (p / 2 ^ (g + 1))) := by
      rcases le_or_lt (2 ^ (g + 1) * (p / 2 ^ (g + 1)) + 2 ^ (g + 1)) n with hle | hlt
      · rw [min_eq_left hle]
        have hc : (2 ^ (g + 1) * (p / 2 ^ (g + 1)) + 2 ^ (g + 1) - 1) + 1
            = 2 ^ (g + 1) * (p / 2 ^ (g + 1) + 1) := by omega
        have he1 := (hA (2 ^ (g + 1) * (p / 2 ^ (g + 1)) + 2 ^ (g + 1) - 1) (by omega)).1
          (Or.inl (by rw [hc]; exact Nat.mul_mod_right _ _))
        rw [he1]
        congr 1
        exact blockStart_eq_of (g + 1) _ (p / 2 ^ (g + 1)) (2 ^ (g + 1) - 1)
          (by omega) (by omega)
      · rw [min_eq_right (le_of_lt hlt)]
        have he1 := (hA (n - 1) (by omega)).1 (Or.inr rfl)
        rw [he1]
        congr 1
        exact blockStart_eq_of (g + 1) _ (p / 2 ^ (g + 1))
          (n - 1 - 2 ^ (g + 1) * (p / 2 ^ (g + 1))) (by omega) (by omega)
    constructor
    · intro _
      rw [hDL, hval]
      congr 1
      have e2 : blockStart g p = 2 ^ g * (2 * (p / 2 ^ (g + 1))) :=
        blockStart_eq_of g p (2 * (p / 2 ^ (g + 1))) (2 ^ g - 1) (by omega) (by omega)
      omega
    · intro hcond
      exfalso
      apply hcond
      left
      have hc : p + 1 = 2 ^ g * (2 * (p / 2 ^ (g + 1)) + 1) := by omega
      rw [hc]
      exact Nat.mul_mod_right _ _
  · by_cases hW2 : 2 ^ (g + 1) * (p / 2 ^ (g + 1)) + 2 ^ g < n ∧
        p + 1 = min (2 ^ (g + 1) * (p / 2 ^ (g + 1)) + 2 ^ (g + 1)) n
    · -- this position is the `end-1` of its block: `a[end-1] += tmp`
      have hDL : downLevel n (2 ^ (g + 1)) A p
          = A p + A (2 ^ (g + 1) * (p / 2 ^ (g + 1)) + 2 ^ g - 1) := by
        rw [downLevel, hw2, if_neg hW1, if_pos hW2]
      obtain ⟨hmidn, hpe⟩ := hW2
      have hApcond : (p + 1) % 2 ^ (g + 1) = 0 ∨ p = n - 1 := by
        rcases le_or_lt (2 ^ (g + 1) * (p / 2 ^ (g + 1)) + 2 ^ (g + 1)) n with hle | hlt
        · left
          have hc : p + 1 = 2 ^ (g + 1) * (p / 2 ^ (g + 1) + 1) := by omega
          rw [hc]; exact Nat.mul_mod_right _ _
        · right; omega
      have hAp := (hA p hp).1 hApcond
      have hbsp1 : blockStart (g + 1) p = 2 ^ (g + 1) * (p / 2 ^ (g + 1)) :=
        blockStart_eq_of (g + 1) p (p / 2 ^ (g + 1))
          (p - 2 ^ (g + 1) * (p / 2 ^ (g + 1))) (by omega) (by omega)
      have hmodmid : (2 ^ (g + 1) * (p / 2 ^ (g + 1)) + 2 ^ g - 1 + 1) % 2 ^ (g + 1)
          = 2 ^ g := by
        have hc : 2 ^ (g + 1) * (p / 2 ^ (g + 1)) + 2 ^ g - 1 + 1
            = 2 ^ g + 2 ^ (g + 1) * (p / 2 ^ (g + 1)) := by omega
        rw [hc, Nat.add_mul_mod_self_left]
        exact Nat.mod_eq_of_lt (by omega)
      have hmid1cond : ¬((2 ^ (g + 1) * (p / 2 ^ (g + 1)) + 2 ^ g - 1 + 1) % 2 ^ (g + 1) = 0
          ∨ 2 ^ (g + 1) * (p / 2 ^ (g + 1)) + 2 ^ g - 1 = n - 1) := by
        rw [not_or]
        exact ⟨by omega, by omega⟩
      have hAmid := (hA (2 ^ (g + 1) * (p / 2 ^ (g + 1)) + 2 ^ g - 1) (by omega)).2 hmid1cond
      have hlv : lvlOf (g + 1) (2 ^ (g + 1) * (p / 2 ^ (g + 1)) + 2 ^ g - 1) = g := by
        refine lvlOf_eq (g + 1) _ g (by omega) ⟨2 * (p / 2 ^ (g + 1)) + 1, by omega⟩ ?_
        intro hdvd
        have h0 := Nat.mod_eq_zero_of_dvd hdvd
        omega
      have hbsmid : blockStart g (2 ^ (g + 1) * (p / 2 ^ (g + 1)) + 2 ^ g - 1)
          = 2 ^ g * (2 * (p / 2 ^ (g + 1))) :=
        blockStart_eq_of g _ (2 * (p / 2 ^ (g + 1))) (2 ^ g - 1) (by omega) (by omega)
      have hup : 2 ^ (g + 1) * (p / 2 ^ (g + 1)) + 2 ^ g - 1 + 1
          = 2 ^ g * (2 * (p / 2 ^ (g + 1)) + 1) := by omega
      rw [hlv, hbsmid, hup] at hAmid
      constructor
      · intro _
        rw [hDL, hAp, hbsp1, hAmid]
        have hglue := sIco_glue a₀ 0 (2 ^ g * (2 * (p / 2 ^ (g + 1))))
          (2 ^ g * (2 * (p / 2 ^ (g + 1)) + 1)) (by omega) (by omega)
        have e2 : blockStart g p = 2 ^ g * (2 * (p / 2 ^ (g + 1)) + 1) :=
          blockStart_eq_of g p (2 * (p / 2 ^ (g + 1)) + 1)
            (p - (2 ^ (g + 1) * (p / 2 ^ (g + 1)) + 2 ^ g)) (by omega) (by omega)
        rw [e2, ← hglue]
        congr 2
      · intro hcond
        exfalso
        apply hcond
        rcases le_or_lt (2 ^ (g + 1) * (p / 2 ^ (g + 1)) + 2 ^ (g + 1)) n with hle | hlt
        · left
          have hc : p + 1 = 2 ^ g * (2 * (p / 2 ^ (g + 1)) + 2) := by omega
          rw [hc]
          exact Nat.mul_mod_right _ _
        · right; omega
    · -- untouched position
      have hDL : downLevel n (2 ^ (g + 1)) A p = A p := by
        rw [downLevel, hw2, if_neg hW1, if_neg hW2]
      constructor
      · intro hcond
        by_cases hd1 : (p + 1) % 2 ^ (g + 1) = 0
        · exfalso
          obtain ⟨q, hq⟩ := Nat.dvd_of_mod_eq_zero hd1
          have h1 : 2 ^ (g + 1) * (p / 2 ^ (g + 1)) < 2 ^ (g + 1) * q := by omega
          have h3 := Nat.lt_of_mul_lt_mul_left h1
          have h2 : 2 ^ (g + 1) * q ≤ 2 ^ (g + 1) * (p / 2 ^ (g + 1) + 1) := by omega
          have h4 := Nat.le_of_mul_le_mul_left h2 hw
          have hq1 : q = p / 2 ^ (g + 1) + 1 := by omega
          subst hq1
          exact hW2 ⟨by omega, by omega⟩
        · rcases hcond with hg | hpn
          · obtain ⟨q, hq⟩ := Nat.dvd_of_mod_eq_zero hg
            have h1 : 2 ^ g * (2 * (p / 2 ^ (g + 1))) < 2 ^ g * q := by omega
            have h3 := Nat.lt_of_mul_lt_mul_left h1
            have h2 : 2 ^ g * q ≤ 2 ^ g * (2 * (p / 2 ^ (g + 1)) + 2) := by omega
            have h4 := Nat.le_of_mul_le_mul_left h2 h2g
            rcases (by omega : q = 2 * (p / 2 ^ (g + 1)) + 1 ∨ q = 2 * (p / 2 ^ (g + 1)) + 2)
              with hq2 | hq2
            · subst hq2
              have hpn : p = n - 1 := by omega
              have hAp := (hA p hp).1 (Or.inr hpn)
              rw [hDL, hAp]
              congr 1
              have e1 : blockStart (g + 1) p = 2 ^ (g + 1) * (p / 2 ^ (g + 1)) :=
                blockStart_eq_of (g + 1) p (p / 2 ^ (g + 1))
                  (p - 2 ^ (g + 1) * (p / 2 ^ (g + 1))) (by omega) (by omega)
              have e2 : blockStart g p = 2 ^ g * (2 * (p / 2 ^ (g + 1))) :=
                blockStart_eq_of g p (2 * (p / 2 ^ (g + 1)))
                  (p - 2 ^ (g + 1) * (p / 2 ^ (g + 1))) (by omega) (by omega)
              omega
            · exfalso
              subst hq2
              apply hd1
              have hc : p + 1 = 2 ^ (g + 1) * (p / 2 ^ (g + 1) + 1) := by omega
              rw [hc]
              exact Nat.mul_mod_right _ _
          · have hAp := (hA p hp).1 (Or.inr hpn)
            have hmidge : n ≤ 2 ^ (g + 1) * (p / 2 ^ (g + 1)) + 2 ^ g := by
              by_contra hlt
              push_neg at hlt
              exact hW2 ⟨hlt, by omega⟩
            rw [hDL, hAp]
            congr 1
            have e1 : blockStart (g + 1) p = 2 ^ (g + 1) * (p / 2 ^ (g + 1)) :=
              blockStart_eq_of (g + 1) p (p / 2 ^ (g + 1))
                (p - 2 ^ (g + 1) * (p / 2 ^ (g + 1))) (by omega) (by omega)
            have e2 : blockStart g p = 2 ^ g * (2 * (p / 2 ^ (g + 1))) :=
              blockStart_eq_of g p (2 * (p / 2 ^ (g + 1)))
                (p - 2 ^ (g + 1) * (p / 2 ^ (g + 1))) (by omega) (by omega)
            omega
      · intro hcond
        obtain ⟨hg, hpn⟩ := not_or.mp hcond
        have hd1 : (p + 1) % 2 ^ (g + 1) ≠ 0 := by
          intro h0
          exact hg (Nat.mod_eq_zero_of_dvd
            (dvd_trans (pow_dvd_pow 2 (Nat.le_succ g)) (Nat.dvd_of_mod_eq_zero h0)))
        have hAp := (hA p hp).2 (not_or.mpr ⟨hd1, hpn⟩)
        rw [hDL, hAp, lvlOf_succ_ne g p hd1]

theorem downsweep_inv (a₀ : ℕ → ℤ) (n : ℕ) :
    ∀ L A, (∀ p, p < n →
      ((p + 1) % 2 ^ L = 0 ∨ p = n - 1 → A p = sIco a₀ 0 (blockStart L p)) ∧
      (¬((p + 1) % 2 ^ L = 0 ∨ p = n - 1) →
        A p = sIco a₀ (blockStart (lvlOf L p) p) (p + 1))) →
    ∀ p, p < n → downsweep n L A p = sIco a₀ 0 p := by
  intro L
  induction L with
  | zero =>
    intro A hA p hp
    have h := (hA p hp).1 (Or.inl (by omega))
    rw [show downsweep n 0 A = A from rfl, h]
    congr 1
    unfold blockStart
    simp
  | succ L ih =>
    intro A hA p hp
    rw [downsweep_succ]
    exact ih (downLevel n (2 ^ (L + 1)) A)
      (fun q hq => downLevel_inv a₀ n L A hA q hq) p hp

theorem scan_dest (n : ℕ) (a₀ : ℕ → ℤ) (hn : 0 < n) :
    ∀ j, j < n → (get_valid_indices n a₀).1 j = sIco a₀ 0 j := by
  intro j hj
  rw [get_valid_indices, if_pos hn]
  refine downsweep_inv a₀ n (scanLim n) _ ?_ j hj
  intro p hp
  have hle := le_pow_scanLim n
  constructor
  · intro hcond
    have hpn : p = n - 1 := by
      rcases hcond with hd | hpn
      · obtain ⟨q, hq⟩ := Nat.dvd_of_mod_eq_zero hd
        have hpos : 0 < q := by
          rcases Nat.eq_zero_or_pos q with h0 | h0
          · subst h0; omega
          · exact h0
        have hmul : 2 ^ scanLim n ≤ 2 ^ scanLim n * q :=
          Nat.le_mul_of_pos_right _ hpos
        omega
      · exact hpn
    rw [if_pos hpn]
    have hbs : blockStart (scanLim n) p = 0 := by
      unfold blockStart
      rw [Nat.div_eq_of_lt (by omega), Nat.mul_zero]
    rw [hbs]
    unfold sIco
    rw [Finset.Ico_self, Finset.sum_empty]
  · intro hcond
    obtain ⟨hd, hpn⟩ := not_or.mp hcond
    rw [if_neg hpn]
    have hup := upsweep_inv a₀ n (scanLim n) p hp
    rw [hup, vstart, lvl, if_neg hpn]

theorem scan_count (n : ℕ) (a₀ : ℕ → ℤ) (hn : 0 < n) :
    (get_valid_indices n a₀).2 = sIco a₀ 0 n := by
  rw [get_valid_indices, if_pos hn]
  have hle := le_pow_scanLim n
  have hup := upsweep_inv a₀ n (scanLim n) (n - 1) (by omega)
  rw [vstart, lvl, if_pos rfl] at hup
  have hbs : blockStart (scanLim n) (n - 1) = 0 := by
    unfold blockStart
    rw [Nat.div_eq_of_lt (by omega), Nat.mul_zero]
  rw [hbs, show n - 1 + 1 = n from by omega] at hup
  exact hup

theorem sIco_count (mask : ℕ → ℤ) (hm : ∀ i, mask i = 0 ∨ mask i = 1) (j : ℕ) :
    sIco mask 0 j = (((Finset.range j).filter (fun i => mask i = 1)).card : ℤ) := by
  unfold sIco
  rw [← Finset.range_eq_Ico]
  rw [Finset.sum_congr rfl
    (fun i _ => show mask i = if mask i = 1 then (1 : ℤ) else 0 from by
      rcases hm i with h | h <;> simp [h])]
  rw [Finset.sum_boole]

/-- C1: for every validity mask (0/1-valued) and `num_anchors > 0`, the row
produced by `get_valid_indices_ir` satisfies
`destination[j] = #{ i < j | mask i = 1 }` for every `j < num_anchors` and
`valid_count = #{ i < num_anchors | mask i = 1 }`; for `num_anchors = 0`,
`valid_count = 0` and no scan is performed. -/
theorem C1_exclusive_scan_correct (n : ℕ) (mask : ℕ → ℤ)
    (hm : ∀ i, mask i = 0 ∨ mask i = 1) :
    (0 < n →
      (∀ j, j < n →
        (get_valid_indices n mask).1 j
          = (((Finset.range j).filter (fun i => mask i = 1)).card : ℤ)) ∧
      (get_valid_indices n mask).2
        = (((Finset.range n).filter (fun i => mask i = 1)).card : ℤ)) ∧
    (n = 0 → (get_valid_indices n mask).2 = 0) := by
  constructor
  · intro hn
    constructor
    · intro j hj
      rw [scan_dest n mask hn j hj, sIco_count mask hm j]
    · rw [scan_count n mask hn, sIco_count mask hm n]
  · intro h0
    subst h0
    rw [get_valid_indices, if_neg (by omega)]

theorem C1_exclusive_scan_correct_witness :
    (∀ i, mask5 i = 0 ∨ mask5 i = 1) ∧ 0 < 5 ∧ (3 : ℕ) < 5 ∧
    (get_valid_indices 5 mask5).1 3
      = (((Finset.range 3).filter (fun i => mask5 i = 1)).card : ℤ) := by
  have hm5 : ∀ i, mask5 i = 0 ∨ mask5 i = 1 := by
    intro i
    unfold mask5
    split
    · right; rfl
    · left; rfl
  exact ⟨hm5, by norm_num, by norm_num,
    ((C1_exclusive_scan_correct 5 mask5 hm5).1 (by norm_num)).1 3 (by norm_num)⟩

theorem cntValid_lt (vb : ℕ → ℤ) (j1 j2 : ℕ) (h : j1 < j2) (hv : vb j1 = 1) :
    cntValid vb j1 < cntValid vb j2 := by
  have h1 : cntValid vb (j1 + 1) = cntValid vb j1 + 1 := by
    unfold cntValid
    rw [Finset.range_succ, Finset.filter_insert, if_pos hv,
      Finset.card_insert_of_not_mem
        (fun hmem => Finset.not_mem_range_self (Finset.mem_of_mem_filter j1 hmem))]
  have h2 : cntValid vb (j1 + 1) ≤ cntValid vb j2 := by
    unfold cntValid
    exact Finset.card_le_card
      (Finset.filter_subset_filter _ (Finset.range_subset.mpr h))
  omega

theorem scatter_inv (n : ℕ) (data : ℕ → ℕ → ℚ) (valid_boxes valid_indices : ℕ → ℤ)
    (hm : ∀ i, valid_boxes i = 0 ∨ valid_boxes i = 1)
    (hd : ∀ j, j < n → valid_indices j = (cntValid valid_boxes j : ℤ)) :
    ∀ m, m ≤ n →
      (∀ j, j < m → valid_boxes j = 1 →
        (∀ k, ((List.range m).foldl (scatterStep data valid_boxes valid_indices)
            (fun _ _ => -1, fun _ => -1)).1 (cntValid valid_boxes j) k = data j k) ∧
        ((List.range m).foldl (scatterStep data valid_boxes valid_indices)
            (fun _ _ => -1, fun _ => -1)).2 (cntValid valid_boxes j) = (j : ℤ)) ∧
      (∀ s, (¬ ∃ j, j < m ∧ valid_boxes j = 1 ∧ cntValid valid_boxes j = s) →
        (∀ k, ((List.range m).foldl (scatterStep data valid_boxes valid_indices)
            (fun _ _ => -1, fun _ => -1)).1 s k = -1) ∧
        ((List.range m).foldl (scatterStep data valid_boxes valid_indices)
            (fun _ _ => -1, fun _ => -1)).2 s = -1) := by
  intro m
  induction m with
  | zero =>
    intro _
    constructor
    · intro j hj
      omega
    · intro s _
      exact ⟨fun k => rfl, rfl⟩
  | succ m ih =>
    intro hmn
    obtain ⟨ih1, ih2⟩ := ih (by omega)
    rw [foldl_range_succ]
    set F := (List.range m).foldl (scatterStep data valid_boxes valid_indices)
      (fun _ _ => -1, fun _ => -1) with hF
    rcases hm m with hv0 | hv1
    · have hstep : scatterStep data valid_boxes valid_indices F m = F := by
        rw [scatterStep, if_neg (by omega)]
      rw [hstep]
      constructor
      · intro j hj hvj
        have hj' : j < m := by
          rcases Nat.lt_succ_iff_lt_or_eq.mp hj with h | h
          · exact h
          · exfalso; rw [h] at hvj; omega
        exact ih1 j hj' hvj
      · intro s hs
        refine ih2 s ?_
        rintro ⟨j, hj, hvj, hcs⟩
        exact hs ⟨j, by omega, hvj, hcs⟩
    · have hvi : (valid_indices m).toNat = cntValid valid_boxes m := by
        rw [hd m (by omega)]
        exact Int.toNat_natCast _
      have hstep1 : ∀ s k, (scatterStep data valid_boxes valid_indices F m).1 s k
          = if s = cntValid valid_boxes m then data m k else F.1 s k := by
        intro s k
        rw [scatterStep, if_pos (by omega), hvi]
      have hstep2 : ∀ s, (scatterStep data valid_boxes valid_indices F m).2 s
          = if s = cntValid valid_boxes m then (m : ℤ) else F.2 s := by
        intro s
        rw [scatterStep, if_pos (by omega), hvi]
      constructor
      · intro j hj hvj
        rcases Nat.lt_succ_iff_lt_or_eq.mp hj with hj' | hj'
        · have hne : cntValid valid_boxes j ≠ cntValid valid_boxes m :=
            Nat.ne_of_lt (cntValid_lt valid_boxes j m hj' hvj)
          exact ⟨fun k => by rw [hstep1, if_neg hne]; exact (ih1 j hj' hvj).1 k,
            by rw [hstep2, if_neg hne]; exact (ih1 j hj' hvj).2⟩
        · subst hj'
          exact ⟨fun k => by rw [hstep1, if_pos rfl],
            by rw [hstep2, if_pos rfl]⟩
      · intro s hs
        have hsm : s ≠ cntValid valid_boxes m := by
          intro hssm
          exact hs ⟨m, by omega, hv1, hssm.symm⟩
        have hold := ih2 s (by
          rintro ⟨j, hj, hvj, hcs⟩
          exact hs ⟨j, by omega, hvj, hcs⟩)
        exact ⟨fun k => by rw [hstep1, if_neg hsm]; exact hold.1 k,
          by rw [hstep2, if_neg hsm]; exact hold.2⟩

/-- C2: given a 0/1 mask and the destination array produced by the exclusive
scan, after `get_valid_counts_ir` runs on a row: every valid anchor's full
record is copied to its destination slot with its original index recorded in
`out_indices`, destinations of valid anchors lie in `0 .. valid_count - 1`
and preserve the anchors' original relative order (stability), and every
slot not written by a valid anchor holds `-1` in every field and in
`out_indices`. -/
theorem C2_compaction_stable_sentinel (n : ℕ) (data : ℕ → ℕ → ℚ)
    (valid_boxes valid_indices : ℕ → ℤ)
    (hm : ∀ i, valid_boxes i = 0 ∨ valid_boxes i = 1)
    (hd : ∀ j, j < n → valid_indices j = (cntValid valid_boxes j : ℤ)) :
    (∀ j, j < n → valid_boxes j = 1 →
      (∀ k, (get_valid_counts_row n data valid_indices valid_boxes).1
          ((valid_indices j).toNat) k = data j k) ∧
      (get_valid_counts_row n data valid_indices valid_boxes).2
          ((valid_indices j).toNat) = (j : ℤ) ∧
      (valid_indices j).toNat < cntValid valid_boxes n) ∧
    (∀ j1 j2, j1 < j2 → j2 < n → valid_boxes j1 = 1 → valid_boxes j2 = 1 →
      (valid_indices j1).toNat < (valid_indices j2).toNat) ∧
    (∀ s, (¬ ∃ j, j < n ∧ valid_boxes j = 1 ∧ (valid_indices j).toNat = s) →
      (∀ k, (get_valid_counts_row n data valid_indices valid_boxes).1 s k = -1) ∧
      (get_valid_counts_row n data valid_indices valid_boxes).2 s = -1) := by
  obtain ⟨h1, h2⟩ := scatter_inv n data valid_boxes valid_indices hm hd n le_rfl
  refine ⟨?_, ?_, ?_⟩
  · intro j hj hvj
    have hvi : (valid_indices j).toNat = cntValid valid_boxes j := by
      rw [hd j hj]
      exact Int.toNat_natCast _
    rw [get_valid_counts_row, hvi]
    exact ⟨(h1 j hj hvj).1, (h1 j hj hvj).2,
      cntValid_lt valid_boxes j n hj hvj⟩
  · intro j1 j2 h12 hj2 hvj1 hvj2
    rw [hd j1 (by omega), hd j2 hj2, Int.toNat_natCast, Int.toNat_natCast]
    exact cntValid_lt valid_boxes j1 j2 h12 hvj1
  · intro s hs
    rw [get_valid_counts_row]
    refine h2 s ?_
    rintro ⟨j, hj, hvj, hcs⟩
    refine hs ⟨j, hj, hvj, ?_⟩
    rw [hd j hj, Int.toNat_natCast]
    exact hcs

theorem C2_compaction_stable_sentinel_witness :
    (∀ i, vb3 i = 0 ∨ vb3 i = 1) ∧ (∀ j, j < 3 → vi3 j = (cntValid vb3 j : ℤ)) ∧
    ((∀ j, j < 3 → vb3 j = 1 →
      (∀ k, (get_valid_counts_row 3 data3 vi3 vb3).1 ((vi3 j).toNat) k = data3 j k) ∧
      (get_valid_counts_row 3 data3 vi3 vb3).2 ((vi3 j).toNat) = (j : ℤ) ∧
      (vi3 j).toNat < cntValid vb3 3) ∧
    (∀ j1 j2, j1 < j2 → j2 < 3 → vb3 j1 = 1 → vb3 j2 = 1 →
      (vi3 j1).toNat < (vi3 j2).toNat) ∧
    (∀ s, (¬ ∃ j, j < 3 ∧ vb3 j = 1 ∧ (vi3 j).toNat = s) →
      (∀ k, (get_valid_counts_row 3 data3 vi3 vb3).1 s k = -1) ∧
      (get_valid_counts_row 3 data3 vi3 vb3).2 s = -1)) := by
  have hm3 : ∀ i, vb3 i = 0 ∨ vb3 i = 1 := by
    intro i
    unfold vb3
    split
    · right; rfl
    · left; rfl
  have hd3 : ∀ j, j < 3 → vi3 j = (cntValid vb3 j : ℤ) := by
    intro j hj
    interval_cases j <;> decide
  exact ⟨hm3, hd3, C2_compaction_stable_sentinel 3 data3 vb3 vi3 hm3 hd3⟩

theorem interArea_comm (a b : Box) : interArea a b = interArea b a := by
  unfold interArea
  rw [min_comm (boxB a), max_comm (boxT a), min_comm (boxR a), max_comm (boxL a)]

theorem unionArea_comm (a b : Box) : unionArea a b = unionArea b a := by
  unfold unionArea
  rw [interArea_comm]
  ring

theorem interArea_nonneg (a b : Box) : 0 ≤ interArea a b :=
  mul_nonneg (le_max_left 0 _) (le_max_left 0 _)

theorem boxArea_nonneg (a : Box) : 0 ≤ boxArea a :=
  mul_nonneg (sub_nonneg.mpr (min_le_max)) (sub_nonneg.mpr (min_le_max))

theorem interArea_le_boxArea (a b : Box) : interArea a b ≤ boxArea a := by
  unfold interArea boxArea
  rw [mul_comm (boxR a - boxL a)]
  refine mul_le_mul ?_ ?_ (le_max_left 0 _) (sub_nonneg.mpr min_le_max)
  · exact max_le (sub_nonneg.mpr min_le_max)
      (sub_le_sub (min_le_left _ _) (le_max_left _ _))
  · exact max_le (sub_nonneg.mpr min_le_max)
      (sub_le_sub (min_le_left _ _) (le_max_left _ _))

/-- C8: the IoU of `calculate_overlap` is symmetric, always lies in `[0, 1]`,
and equals `1` on the diagonal for any box of positive area (the `u ≤ 0`
degenerate rule yields `0`). -/
theorem C8_iou_symm_bounds (a b : Box) :
    calculate_overlap a b = calculate_overlap b a ∧
    0 ≤ calculate_overlap a b ∧ calculate_overlap a b ≤ 1 ∧
    (0 < boxArea a → calculate_overlap a a = 1) := by
  refine ⟨?_, ?_, ?_, ?_⟩
  · unfold calculate_overlap
    rw [interArea_comm, unionArea_comm]
  · unfold calculate_overlap
    split
    · exact le_refl 0
    · rename_i h
      exact div_nonneg (interArea_nonneg a b) (le_of_lt (not_le.mp h))
  · unfold calculate_overlap
    split
    · norm_num
    · rename_i h
      have hu : 0 < unionArea a b := not_le.mp h
      rw [div_le_one hu]
      have h1 := interArea_le_boxArea a b
      have h2 : interArea a b ≤ boxArea b := by
        rw [interArea_comm]
        exact interArea_le_boxArea b a
      unfold unionArea at hu ⊢
      linarith
  · intro hpos
    have hTB : boxT a ≤ boxB a := min_le_max
    have hLR : boxL a ≤ boxR a := min_le_max
    have hself : interArea a a = boxArea a := by
      unfold interArea boxArea
      rw [min_self, min_self, max_self, max_self,
        max_eq_right (sub_nonneg.mpr hTB), max_eq_right (sub_nonneg.mpr hLR), mul_comm]
    have huself : unionArea a a = boxArea a := by
      unfold unionArea
      rw [hself]
      ring
    unfold calculate_overlap
    rw [huself, hself, if_neg (not_le.mpr hpos)]
    exact div_self (ne_of_gt hpos)

/-- C9 (implicit): on the skip path (`iou_threshold ≤ 0` or
`valid_count ≤ 0`), `nms_ir` writes `num_valid_boxes = 0`, regardless of
the boxes copied through to the output. -/
theorem C9_skip_path_reports_zero (p : NmsParams) (n : ℕ) (vc : ℤ)
    (sorted_index : ℕ → ℕ) (data out0 : ℕ → Box)
    (h : p.iou_threshold ≤ 0 ∨ vc ≤ 0) :
    (nms_row p n vc sorted_index data out0).2 = 0 := by
  have hng : ¬(0 < p.iou_threshold ∧ 0 < vc) := by
    rintro ⟨h1, h2⟩
    rcases h with h | h
    · exact absurd h1 (not_lt.mpr h)
    · exact absurd h2 (not_lt.mpr h)
  rw [nms_row, phaseB, if_neg hng]

theorem C9_skip_path_reports_zero_witness :
    ((⟨0, -1, true, -1, -1⟩ : NmsParams).iou_threshold ≤ 0 ∨ (4 : ℤ) ≤ 0) ∧
    (nms_row ⟨0, -1, true, -1, -1⟩ 4 4 id (fun _ => sentinelBox)
      (fun _ => sentinelBox)).2 = 0 :=
  ⟨Or.inl (le_refl 0),
    C9_skip_path_reports_zero ⟨0, -1, true, -1, -1⟩ 4 4 id _ _ (Or.inl (le_refl 0))⟩

/-- C5: on a row with `iou_threshold ≤ 0` or `valid_count = 0`, no
suppression search executes and the output buffer is exactly the identity
copy of the first `valid_count` boxes (untouched elsewhere). -/
theorem C5_skip_identity_pass (p : NmsParams) (n : ℕ) (vc : ℤ)
    (sorted_index : ℕ → ℕ) (data out0 : ℕ → Box)
    (h : p.iou_threshold ≤ 0 ∨ vc = 0) :
    (nms_row p n vc sorted_index data out0).1
      = fun (j : ℕ) => if (j : ℤ) < vc then data j else out0 j := by
  have hng : ¬(0 < p.iou_threshold ∧ 0 < vc) := by
    rintro ⟨h1, h2⟩
    rcases h with h | h
    · exact absurd h1 (not_lt.mpr h)
    · rw [h] at h2
      exact lt_irrefl 0 h2
  rw [nms_row, phaseB, if_neg hng]
  show phaseA p n vc sorted_index data out0 = _
  rw [phaseA, if_neg hng]

/-- C4 (amended): at `iou_threshold = 0` the Phase B guard
`iou_threshold > 0` fails, so suppression is skipped and the reported
surviving count is `0` (hence at most one). -/
theorem C4_zero_threshold_skips (p : NmsParams) (n : ℕ) (vc : ℤ)
    (sorted_index : ℕ → ℕ) (data out0 : ℕ → Box)
    (h : p.iou_threshold = 0) :
    (nms_row p n vc sorted_index data out0).2 = 0 ∧
    (nms_row p n vc sorted_index data out0).2 ≤ 1 := by
  have hng : ¬(0 < p.iou_threshold ∧ 0 < vc) := by
    rintro ⟨h1, _⟩
    rw [h] at h1
    exact lt_irrefl 0 h1
  rw [nms_row, phaseB, if_neg hng]
  exact ⟨rfl, by norm_num⟩

theorem nms_kept_le (p : NmsParams) (nk : ℕ) (hM : 0 < p.max_output_size) :
    ∀ (l : List ℕ) (st : (ℕ → Box) × ℕ),
      (st.2 : ℤ) ≤ p.max_output_size →
      ((l.foldl (nmsStep p nk) st).2 : ℤ) ≤ p.max_output_size := by
  intro l
  induction l with
  | nil => exact fun st h => h
  | cons x xs ih =>
    intro st h
    rw [List.foldl_cons]
    apply ih
    rw [nmsStep, if_pos hM]
    split
    · split
      · rename_i hlt
        show ((st.2 + 1 : ℕ) : ℤ) ≤ p.max_output_size
        push_cast
        omega
      · exact h
    · exact h

/-- C6: when `max_output_size > 0`, the reported surviving count never
exceeds `max_output_size`, and a Phase B iteration whose kept counter has
already reached `max_output_size` leaves the state untouched (no inner
suppression loop runs). -/
theorem C6_max_output_size_cap (p : NmsParams) (n : ℕ) (vc : ℤ)
    (sorted_index : ℕ → ℕ) (data out0 : ℕ → Box)
    (h : 0 < p.max_output_size) :
    (nms_row p n vc sorted_index data out0).2 ≤ p.max_output_size ∧
    (∀ nk (st : (ℕ → Box) × ℕ) j, p.max_output_size ≤ (st.2 : ℤ) →
      nmsStep p nk st j = st) := by
  constructor
  · rw [nms_row, phaseB]
    split
    · exact nms_kept_le p _ h _ _ (by push_cast; omega)
    · show (0 : ℤ) ≤ p.max_output_size
      omega
  · intro nk st j hge
    rw [nmsStep, if_pos h, if_neg (show ¬((st.2 : ℤ) < p.max_output_size) by omega)]
    split <;> rfl

theorem suppress1_of_nonpos (p : NmsParams) (bj b : Box) (h : b.score ≤ 0) :
    suppress1 p bj b = b := by
  rw [suppress1, if_neg]
  rintro ⟨hc, _⟩
  exact absurd hc (not_lt.mpr h)

theorem suppress1_alive (p : NmsParams) (bj b : Box)
    (hiou : calculate_overlap bj b < p.iou_threshold) :
    suppress1 p bj b = b := by
  rw [suppress1]
  split
  · rw [if_neg (not_le.mpr hiou)]
  · rfl

theorem suppress1_kill (p : NmsParams) (bj b : Box) (hs : 0 < b.score)
    (hg : p.force_suppress = true)
    (hiou : p.iou_threshold ≤ calculate_overlap bj b) :
    suppress1 p bj b
      = { b with score := -1, cls := if 0 ≤ p.id_index then -1 else b.cls } := by
  rw [suppress1, if_pos ⟨hs, Or.inl hg⟩, if_pos hiou]

theorem nmsStep_dead (p : NmsParams) (nk : ℕ) (st : (ℕ → Box) × ℕ) (j : ℕ)
    (h : (st.1 j).score ≤ -1) : nmsStep p nk st j = st := by
  rw [nmsStep, if_neg (not_lt.mpr h)]

theorem nmsStep_go (p : NmsParams) (nk : ℕ) (st : (ℕ → Box) × ℕ) (j : ℕ)
    (h : -1 < (st.1 j).score) (hm : p.max_output_size ≤ 0) :
    nmsStep p nk st j = innerLoop p nk st j := by
  rw [nmsStep, if_pos h, if_neg (not_lt.mpr hm)]

/-- C3 (amended): in the inner loop a later candidate `b` is skipped
(neither compared nor invalidated) exactly when its score is `≤ 0` — not
only at the sentinel `-1`; every box with score `> 0` that passes the class
gate participates and is invalidated when its IoU reaches the threshold. -/
theorem C3_alive_iff_positive_score (p : NmsParams) (bj b : Box) :
    (b.score ≤ 0 → suppress1 p bj b = b) ∧
    (0 < b.score → (p.force_suppress ∨ p.id_index < 0 ∨ b.cls = bj.cls) →
      p.iou_threshold ≤ calculate_overlap bj b →
      (suppress1 p bj b).score = -1) := by
  constructor
  · exact suppress1_of_nonpos p bj b
  · intro hs hg hiou
    rw [suppress1, if_pos ⟨hs, hg⟩, if_pos hiou]

theorem pC3_cond : 0 < pC3.iou_threshold ∧ 0 < (2 : ℤ) := by
  constructor
  · show (0 : ℚ) < 1/2
    norm_num
  · norm_num

theorem pC3_nkeep : nmsNkeep pC3 2 = 2 := by
  rw [nmsNkeep, if_neg]
  rintro ⟨h, _⟩
  exact absurd h (by show ¬((0:ℤ) < -1); norm_num)

theorem phaseA_C3 : phaseA pC3 2 2 id dataC3 zeroOut = outC3 := by
  funext j
  rw [phaseA, if_pos pC3_cond, pC3_nkeep]
  simp only [outC3, id]
  by_cases hj : j < 2
  · rw [if_pos (show (j : ℤ) < 2 by omega), if_pos hj]
  · rw [if_neg (show ¬((j : ℤ) < 2) by omega), if_neg hj, if_neg hj]
    rfl

theorem gC3_at_1 : gC3 1 = boxBC3 := by
  show (if 0 < 1 ∧ 1 < 2 then suppress1 pC3 (outC3 0) (outC3 1) else outC3 1) = boxBC3
  rw [if_pos (by omega)]
  show suppress1 pC3 boxAC3 boxBC3 = boxBC3
  exact suppress1_of_nonpos pC3 boxAC3 boxBC3 (le_of_eq rfl)

theorem nmsStep_C3_0 : nmsStep pC3 2 (outC3, 0) 0 = (gC3, 1) := by
  rw [nmsStep_go pC3 2 (outC3, 0) 0 (by show (-1 : ℚ) < 9/10; norm_num)
    (by show (-1 : ℤ) ≤ 0; norm_num)]
  rfl

theorem nmsStep_C3_1 : nmsStep pC3 2 (gC3, 1) 1 = (gC3b, 2) := by
  rw [nmsStep_go pC3 2 (gC3, 1) 1
    (by show -1 < (gC3 1).score; rw [gC3_at_1]; show (-1 : ℚ) < 0; norm_num)
    (by show (-1 : ℤ) ≤ 0; norm_num)]
  rfl

theorem phaseB_C3 : phaseB pC3 2 outC3 = (gC3b, 2) := by
  have hnk : (nmsNkeep pC3 2).toNat = 2 := by rw [pC3_nkeep]; rfl
  rw [phaseB, if_pos pC3_cond, hnk,
    show List.range 2 = [0, 1] from rfl,
    List.foldl_cons, List.foldl_cons, List.foldl_nil, nmsStep_C3_0, nmsStep_C3_1]
  rfl

theorem overlap_C3 : calculate_overlap boxAC3 boxBC3 = 1 := by
  norm_num [calculate_overlap, interArea, unionArea, boxArea, boxL, boxR, boxT, boxB,
    boxAC3, boxBC3]

/-- C3 counterexample: box 1 has score `0` — not the invalidated sentinel
`-1` — the class gate passes (`force_suppress`), and its IoU with the kept
box 0 is `1 ≥ 1/2`; under the claim it would participate and be
invalidated, but the run leaves it untouched (score still `0`) and even
counts it as kept (`num_valid_boxes = 2`). -/
theorem C3_alive_iff_sentinel_counterexample :
    ((nms_row pC3 2 2 id dataC3 zeroOut).1 1).score = 0 ∧
    boxBC3.score ≠ -1 ∧
    pC3.iou_threshold ≤ calculate_overlap boxAC3 boxBC3 ∧
    pC3.force_suppress = true ∧
    (nms_row pC3 2 2 id dataC3 zeroOut).2 = 2 := by
  have h1 : nms_row pC3 2 2 id dataC3 zeroOut = (gC3b, 2) := by
    rw [nms_row, phaseA_C3, phaseB_C3]
  refine ⟨?_, ?_, ?_, rfl, ?_⟩
  · rw [h1]
    show (gC3b 1).score = 0
    have h2 : gC3b 1 = gC3 1 := by
      show (if 1 < 1 ∧ 1 < 2 then suppress1 pC3 (gC3 1) (gC3 1) else gC3 1) = gC3 1
      rw [if_neg (by omega)]
    rw [h2, gC3_at_1]
    rfl
  · show (0 : ℚ) ≠ -1
    norm_num
  · rw [overlap_C3]
    show (1 : ℚ)/2 ≤ 1
    norm_num
  · rw [h1]

theorem overlap_C3_rev : calculate_overlap boxBC3 boxAC3 = 1 := by
  norm_num [calculate_overlap, interArea, unionArea, boxArea, boxL, boxR, boxT, boxB,
    boxAC3, boxBC3]

theorem C3_alive_iff_positive_score_witness :
    (boxBC3.score ≤ 0 ∧ suppress1 pC3 boxAC3 boxBC3 = boxBC3) ∧
    (0 < boxAC3.score ∧
      (pC3.force_suppress ∨ pC3.id_index < 0 ∨ boxAC3.cls = boxBC3.cls) ∧
      pC3.iou_threshold ≤ calculate_overlap boxBC3 boxAC3 ∧
      (suppress1 pC3 boxBC3 boxAC3).score = -1) := by
  have hsk : boxBC3.score ≤ 0 := le_of_eq rfl
  have hs : 0 < boxAC3.score := by show (0 : ℚ) < 9/10; norm_num
  have hiou : pC3.iou_threshold ≤ calculate_overlap boxBC3 boxAC3 := by
    rw [overlap_C3_rev]
    show (1 : ℚ)/2 ≤ 1
    norm_num
  exact ⟨⟨hsk, (C3_alive_iff_positive_score pC3 boxAC3 boxBC3).1 hsk⟩,
    hs, Or.inl rfl, hiou,
    (C3_alive_iff_positive_score pC3 boxBC3 boxAC3).2 hs (Or.inl rfl) hiou⟩

theorem overlap_AB : calculate_overlap boxA4 boxB4 = 1/3 := by
  norm_num [calculate_overlap, interArea, unionArea, boxArea, boxL, boxR, boxT, boxB,
    boxA4, boxB4]

theorem overlap_AC : calculate_overlap boxA4 boxC4 = 1/5 := by
  norm_num [calculate_overlap, interArea, unionArea, boxArea, boxL, boxR, boxT, boxB,
    boxA4, boxC4]

theorem overlap_AD : calculate_overlap boxA4 boxD4 = 1/5 := by
  norm_num [calculate_overlap, interArea, unionArea, boxArea, boxL, boxR, boxT, boxB,
    boxA4, boxD4]

theorem overlap_BC : calculate_overlap boxB4 boxC4 = 1/2 := by
  norm_num [calculate_overlap, interArea, unionArea, boxArea, boxL, boxR, boxT, boxB,
    boxB4, boxC4]

theorem overlap_BD : calculate_overlap boxB4 boxD4 = 1/2 := by
  norm_num [calculate_overlap, interArea, unionArea, boxArea, boxL, boxR, boxT, boxB,
    boxB4, boxD4]

theorem overlap_CD : calculate_overlap boxC4 boxD4 = 0 := by
  norm_num [calculate_overlap, interArea, unionArea, boxArea, boxL, boxR, boxT, boxB,
    boxC4, boxD4]

theorem pHi_cond : 0 < pHi.iou_threshold ∧ 0 < (4 : ℤ) := by
  constructor
  · show (0 : ℚ) < 1/2
    norm_num
  · norm_num

theorem pLo_cond : 0 < pLo.iou_threshold ∧ 0 < (4 : ℤ) := by
  constructor
  · show (0 : ℚ) < 3/10
    norm_num
  · norm_num

theorem pHi_nkeep : nmsNkeep pHi 4 = 4 := by
  rw [nmsNkeep, if_neg]
  rintro ⟨h, _⟩
  exact absurd h (by show ¬((0:ℤ) < -1); norm_num)

theorem pLo_nkeep : nmsNkeep pLo 4 = 4 := by
  rw [nmsNkeep, if_neg]
  rintro ⟨h, _⟩
  exact absurd h (by show ¬((0:ℤ) < -1); norm_num)

theorem phaseA_4H : phaseA pHi 4 4 id data4 zeroOut = out14 := by
  funext j
  rw [phaseA, if_pos pHi_cond, pHi_nkeep]
  simp only [out14, id]
  by_cases hj : j < 4
  · rw [if_pos (show (j : ℤ) < 4 by omega), if_pos hj]
  · rw [if_neg (show ¬((j : ℤ) < 4) by omega), if_neg hj, if_neg hj]
    rfl

theorem phaseA_4L : phaseA pLo 4 4 id data4 zeroOut = out14 := by
  funext j
  rw [phaseA, if_pos pLo_cond, pLo_nkeep]
  simp only [out14, id]
  by_cases hj : j < 4
  · rw [if_pos (show (j : ℤ) < 4 by omega), if_pos hj]
  · rw [if_neg (show ¬((j : ℤ) < 4) by omega), if_neg hj, if_neg hj]
    rfl

theorem g1H_1 : g1H 1 = boxB4 := by
  show (if 0 < 1 ∧ 1 < 4 then suppress1 pHi (out14 0) (out14 1) else out14 1) = boxB4
  rw [if_pos (by omega)]
  show suppress1 pHi boxA4 boxB4 = boxB4
  exact suppress1_alive pHi boxA4 boxB4
    (by rw [overlap_AB]; show (1:ℚ)/3 < 1/2; norm_num)

theorem g1H_2 : g1H 2 = boxC4 := by
  show (if 0 < 2 ∧ 2 < 4 then suppress1 pHi (out14 0) (out14 2) else out14 2) = boxC4
  rw [if_pos (by omega)]
  show suppress1 pHi boxA4 boxC4 = boxC4
  exact suppress1_alive pHi boxA4 boxC4
    (by rw [overlap_AC]; show (1:ℚ)/5 < 1/2; norm_num)

theorem g1H_3 : g1H 3 = boxD4 := by
  show (if 0 < 3 ∧ 3 < 4 then suppress1 pHi (out14 0) (out14 3) else out14 3) = boxD4
  rw [if_pos (by omega)]
  show suppress1 pHi boxA4 boxD4 = boxD4
  exact suppress1_alive pHi boxA4 boxD4
    (by rw [overlap_AD]; show (1:ℚ)/5 < 1/2; norm_num)

theorem g2H_2 : g2H 2 = boxC4dead := by
  show (if 1 < 2 ∧ 2 < 4 then suppress1 pHi (g1H 1) (g1H 2) else g1H 2) = boxC4dead
  rw [if_pos (by omega), g1H_1, g1H_2,
    suppress1_kill pHi boxB4 boxC4 (by show (0:ℚ) < 7/10; norm_num) rfl
      (by rw [overlap_BC]; show (1:ℚ)/2 ≤ 1/2; norm_num)]
  rfl

theorem g2H_3 : g2H 3 = boxD4dead := by
  show (if 1 < 3 ∧ 3 < 4 then suppress1 pHi (g1H 1) (g1H 3) else g1H 3) = boxD4dead
  rw [if_pos (by omega), g1H_1, g1H_3,
    suppress1_kill pHi boxB4 boxD4 (by show (0:ℚ) < 6/10; norm_num) rfl
      (by rw [overlap_BD]; show (1:ℚ)/2 ≤ 1/2; norm_num)]
  rfl

theorem sH0 : nmsStep pHi 4 (out14, 0) 0 = (g1H, 1) := by
  rw [nmsStep_go pHi 4 (out14, 0) 0 (by show (-1 : ℚ) < 9/10; norm_num)
    (by show (-1 : ℤ) ≤ 0; norm_num)]
  rfl

theorem sH1 : nmsStep pHi 4 (g1H, 1) 1 = (g2H, 2) := by
  rw [nmsStep_go pHi 4 (g1H, 1) 1
    (by show -1 < (g1H 1).score; rw [g1H_1]; show (-1 : ℚ) < 8/10; norm_num)
    (by show (-1 : ℤ) ≤ 0; norm_num)]
  rfl

theorem sH2 : nmsStep pHi 4 (g2H, 2) 2 = (g2H, 2) :=
  nmsStep_dead pHi 4 (g2H, 2) 2
    (by show (g2H 2).score ≤ -1; rw [g2H_2]; show (-1 : ℚ) ≤ -1; norm_num)

theorem sH3 : nmsStep pHi 4 (g2H, 2) 3 = (g2H, 2) :=
  nmsStep_dead pHi 4 (g2H, 2) 3
    (by show (g2H 3).score ≤ -1; rw [g2H_3]; show (-1 : ℚ) ≤ -1; norm_num)

theorem phaseB_4H : phaseB pHi 4 out14 = (g2H, 2) := by
  have hnk : (nmsNkeep pHi 4).toNat = 4 := by rw [pHi_nkeep]; rfl
  rw [phaseB, if_pos pHi_cond, hnk,
    show List.range 4 = [0, 1, 2, 3] from rfl,
    List.foldl_cons, List.foldl_cons, List.foldl_cons, List.foldl_cons,
    List.foldl_nil, sH0, sH1, sH2, sH3]
  rfl

theorem g1L_1 : g1L 1 = boxB4dead := by
  show (if 0 < 1 ∧ 1 < 4 then suppress1 pLo (out14 0) (out14 1) else out14 1) = boxB4dead
  rw [if_pos (by omega)]
  show suppress1 pLo boxA4 boxB4 = boxB4dead
  rw [suppress1_kill pLo boxA4 boxB4 (by show (0:ℚ) < 8/10; norm_num) rfl
    (by rw [overlap_AB]; show (3:ℚ)/10 ≤ 1/3; norm_num)]
  rfl

theorem g1L_2 : g1L 2 = boxC4 := by
  show (if 0 < 2 ∧ 2 < 4 then suppress1 pLo (out14 0) (out14 2) else out14 2) = boxC4
  rw [if_pos (by omega)]
  show suppress1 pLo boxA4 boxC4 = boxC4
  exact suppress1_alive pLo boxA4 boxC4
    (by rw [overlap_AC]; show (1:ℚ)/5 < 3/10; norm_num)

theorem g1L_3 : g1L 3 = boxD4 := by
  show (if 0 < 3 ∧ 3 < 4 then suppress1 pLo (out14 0) (out14 3) else out14 3) = boxD4
  rw [if_pos (by omega)]
  show suppress1 pLo boxA4 boxD4 = boxD4
  exact suppress1_alive pLo boxA4 boxD4
    (by rw [overlap_AD]; show (1:ℚ)/5 < 3/10; norm_num)

theorem g3L_3 : g3L 3 = boxD4 := by
  show (if 2 < 3 ∧ 3 < 4 then suppress1 pLo (g1L 2) (g1L 3) else g1L 3) = boxD4
  rw [if_pos (by omega), g1L_2, g1L_3]
  exact suppress1_alive pLo boxC4 boxD4
    (by rw [overlap_CD]; show (0:ℚ) < 3/10; norm_num)

theorem sL0 : nmsStep pLo 4 (out14, 0) 0 = (g1L, 1) := by
  rw [nmsStep_go pLo 4 (out14, 0) 0 (by show (-1 : ℚ) < 9/10; norm_num)
    (by show (-1 : ℤ) ≤ 0; norm_num)]
  rfl

theorem sL1 : nmsStep pLo 4 (g1L, 1) 1 = (g1L, 1) :=
  nmsStep_dead pLo 4 (g1L, 1) 1
    (by show (g1L 1).score ≤ -1; rw [g1L_1]; show (-1 : ℚ) ≤ -1; norm_num)

theorem sL2 : nmsStep pLo 4 (g1L, 1) 2 = (g3L, 2) := by
  rw [nmsStep_go pLo 4 (g1L, 1) 2
    (by show -1 < (g1L 2).score; rw [g1L_2]; show (-1 : ℚ) < 7/10; norm_num)
    (by show (-1 : ℤ) ≤ 0; norm_num)]
  rfl

theorem sL3 : nmsStep pLo 4 (g3L, 2) 3 = (g4L, 3) := by
  rw [nmsStep_go pLo 4 (g3L, 2) 3
    (by show -1 < (g3L 3).score; rw [g3L_3]; show (-1 : ℚ) < 6/10; norm_num)
    (by show (-1 : ℤ) ≤ 0; norm_num)]
  rfl

theorem phaseB_4L : phaseB pLo 4 out14 = (g4L, 3) := by
  have hnk : (nmsNkeep pLo 4).toNat = 4 := by rw [pLo_nkeep]; rfl
  rw [phaseB, if_pos pLo_cond, hnk,
    show List.range 4 = [0, 1, 2, 3] from rfl,
    List.foldl_cons, List.foldl_cons, List.foldl_cons, List.foldl_cons,
    List.foldl_nil, sL0, sL1, sL2, sL3]
  rfl

/-- C4 counterexample: on the same four-box input the run with the larger
threshold `1/2` keeps 2 boxes while the run with the smaller threshold
`3/10` keeps 3 — the kept count is not non-increasing as `iou_threshold`
decreases toward 0. -/
theorem C4_monotonicity_counterexample :
    pLo.iou_threshold < pHi.iou_threshold ∧
    (nms_row pHi 4 4 id data4 zeroOut).2 = 2 ∧
    (nms_row pLo 4 4 id data4 zeroOut).2 = 3 := by
  refine ⟨by show (3:ℚ)/10 < 1/2; norm_num, ?_, ?_⟩
  · rw [nms_row, phaseA_4H, phaseB_4H]
  · rw [nms_row, phaseA_4L, phaseB_4L]

theorem C4_zero_threshold_skips_witness :
    (⟨0, -1, true, -1, -1⟩ : NmsParams).iou_threshold = 0 ∧
    ((nms_row ⟨0, -1, true, -1, -1⟩ 4 4 id data4 zeroOut).2 = 0 ∧
      (nms_row ⟨0, -1, true, -1, -1⟩ 4 4 id data4 zeroOut).2 ≤ 1) :=
  ⟨rfl, C4_zero_threshold_skips ⟨0, -1, true, -1, -1⟩ 4 4 id data4 zeroOut rfl⟩

theorem C5_skip_identity_pass_witness :
    ((⟨0, -1, true, -1, -1⟩ : NmsParams).iou_threshold ≤ 0 ∨ (2 : ℤ) = 0) ∧
    (nms_row ⟨0, -1, true, -1, -1⟩ 2 2 id dataC3 zeroOut).1
      = fun (j : ℕ) => if (j : ℤ) < 2 then dataC3 j else zeroOut j :=
  ⟨Or.inl (le_refl 0),
    C5_skip_identity_pass ⟨0, -1, true, -1, -1⟩ 2 2 id dataC3 zeroOut
      (Or.inl (le_refl 0))⟩

theorem C6_max_output_size_cap_witness :
    0 < pC6.max_output_size ∧
    ((nms_row pC6 2 2 id dataC3 zeroOut).2 ≤ pC6.max_output_size ∧
      (∀ nk (st : (ℕ → Box) × ℕ) j, pC6.max_output_size ≤ (st.2 : ℤ) →
        nmsStep pC6 nk st j = st)) :=
  ⟨by show (0:ℤ) < 1; norm_num,
    C6_max_output_size_cap pC6 2 2 id dataC3 zeroOut (by show (0:ℤ) < 1; norm_num)⟩

theorem C8_iou_symm_bounds_witness :
    calculate_overlap unitBox boxAC3 = calculate_overlap boxAC3 unitBox ∧
    0 ≤ calculate_overlap unitBox boxAC3 ∧ calculate_overlap unitBox boxAC3 ≤ 1 ∧
    (0 < boxArea unitBox ∧ calculate_overlap unitBox unitBox = 1) := by
  have hpos : 0 < boxArea unitBox := by
    norm_num [boxArea, boxL, boxR, boxT, boxB, unitBox]
  have h := C8_iou_symm_bounds unitBox boxAC3
  exact ⟨h.1, h.2.1, h.2.2.1, hpos, (C8_iou_symm_bounds unitBox unitBox).2.2.2 hpos⟩

/-- C7: the validity flag of anchor `(i, j)` is `1` iff the anchor's score
is strictly above the threshold and (`id_index < 0` or its class id is
`≥ 0`); in every other case the flag is `0`. -/
theorem C7_validity_mask_rule (num_anchors elem_length : ℕ) (data : ℤ → ℚ)
    (score_threshold : ℚ) (id_index score_index : ℤ) (i j : ℕ) :
    (get_valid_boxes num_anchors elem_length data score_threshold id_index
        score_index i j = 1
      ↔ (score_threshold
          < data (((i * num_anchors + j : ℕ) : ℤ) * (elem_length : ℤ) + score_index)
        ∧ (id_index < 0 ∨
          0 ≤ data (((i * num_anchors + j : ℕ) : ℤ) * (elem_length : ℤ) + id_index)))) ∧
    (get_valid_boxes num_anchors elem_length data score_threshold id_index
        score_index i j = 1
      ∨ get_valid_boxes num_anchors elem_length data score_threshold id_index
        score_index i j = 0) := by
  unfold get_valid_boxes
  split
  · rename_i h
    exact ⟨⟨fun _ => h, fun _ => rfl⟩, Or.inl rfl⟩
  · rename_i h
    exact ⟨⟨fun h1 => absurd h1 (by norm_num), fun hc => absurd hc h⟩, Or.inr rfl⟩

/-- C10: the CUDA atomic-add lowering rule succeeds exactly on the operand
dtypes `int32`, `float32` and `float64`, and raises `RuntimeError` for
every other dtype at lowering time. -/
theorem C10_atomic_add_dtype_rule (dtype : String) :
    ((dtype = int32dt ∨ dtype = float32dt ∨ dtype = float64dt) →
      cuda_atomic_add_rule dtype = Except.ok atomicAddExtern) ∧
    (dtype ≠ int32dt → dtype ≠ float32dt → dtype ≠ float64dt →
      cuda_atomic_add_rule dtype = Except.error unsupportedMsg) := by
  constructor
  · rintro (h | h | h) <;> subst h
    · rw [cuda_atomic_add_rule, if_neg (by decide), if_neg (by decide), if_pos rfl]
    · rw [cuda_atomic_add_rule, if_pos rfl]
    · rw [cuda_atomic_add_rule, if_neg (by decide), if_pos rfl]
  · intro h1 h2 h3
    rw [cuda_atomic_add_rule, if_neg h2, if_neg h3, if_neg h1]

theorem C10_atomic_add_dtype_rule_witness :
    (cuda_atomic_add_rule int32dt = Except.ok atomicAddExtern) ∧
    (float16dt ≠ int32dt ∧ float16dt ≠ float32dt ∧ float16dt ≠ float64dt) ∧
    cuda_atomic_add_rule float16dt = Except.error unsupportedMsg :=
  ⟨(C10_atomic_add_dtype_rule int32dt).1 (Or.inl rfl),
    ⟨by decide, by decide, by decide⟩,
    (C10_atomic_add_dtype_rule float16dt).2 (by decide) (by decide) (by decide)⟩
